import Mathlib

/-!
Verification development for the monkey-rs interpreter front end.

The AST node hierarchy and its two operations (`TokenLiteral`, `String`) are
embedded from `src/monkey/src/ast.rs`.  The lexer, parser, object system and
evaluator are not part of the published sources (only `ast.rs` and the
evaluator's test file are), so those components are modelled from the spec
(`spec.md` sections 4.1, 4.2, 4.4) where a claim needs them.

Rust's `i64` values are represented as `Int`, with the 64-bit range check made
explicit where the code performs a fallible parse.  Rust's `&'src str` slices
are represented as `String`.  `Box` indirection is flattened away: the
`PrefixExpression` and `InfixExpression` structs become constructors of the
`ExpressionEnum` inductive carrying their fields inline.
-/

/-- Abbreviation for the string type, used in signatures of methods that are
named `String` after their Rust counterparts. -/
abbrev Str := String

/-- Modelled from the spec: the token kinds of the lexical grammar (§4.1, §6):
identifiers, integer literals, single- and multi-character operators,
delimiters, the `let` / `return` keywords, an explicit illegal-token kind and
an end-of-input kind.  `token.rs` is not among the published sources. -/
inductive TokenKind where
  | ILLEGAL
  | EOF
  | IDENT
  | INT
  | ASSIGN
  | PLUS
  | MINUS
  | BANG
  | ASTERISK
  | SLASH
  | LT
  | GT
  | EQ
  | NOT_EQ
  | SEMICOLON
  | LPAREN
  | RPAREN
  | LET
  | RETURN
deriving DecidableEq

/-- Modelled from the spec: a token is a semantic tag (kind) plus the literal
substring it matched in the source (§3).  The borrowed `&'src str` becomes an
owned `String`. -/
structure Token where
  kind : TokenKind
  literal : Str
deriving DecidableEq

/-- `Identifier` from ast.rs: originating token plus the identifier text. -/
structure Identifier where
  token : Token
  value : Str
deriving DecidableEq

/-- `IntegerLiteral` from ast.rs: originating token plus the parsed `i64`. -/
structure IntegerLiteral where
  token : Token
  value : Int
deriving DecidableEq

/-- `ExpressionEnum` from ast.rs.  `PrefixExpression` and `InfixExpression`
carry their struct fields inline (the Rust structs hold `Box`ed children). -/
inductive ExpressionEnum where
  | Identifier (e : Identifier)
  | IntegerLiteral (e : IntegerLiteral)
  | PrefixExpression (token : Token) (operator : Str) (right : ExpressionEnum)
  | InfixExpression (token : Token) (left : ExpressionEnum) (operator : Str)
      (right : ExpressionEnum)
deriving DecidableEq

/-- `LetStatement` from ast.rs. -/
structure LetStatement where
  token : Token
  name : Identifier
  value : ExpressionEnum
deriving DecidableEq

/-- `ReturnStatement` from ast.rs. -/
structure ReturnStatement where
  token : Token
  returnValue : ExpressionEnum
deriving DecidableEq

/-- `ExpressionStatement` from ast.rs: the inner expression is optional. -/
structure ExpressionStatement where
  token : Token
  expression : Option ExpressionEnum
deriving DecidableEq

/-- `StatementEnum` from ast.rs. -/
inductive StatementEnum where
  | Let (s : LetStatement)
  | Return (s : ReturnStatement)
  | Expression (s : ExpressionStatement)
deriving DecidableEq

/-- `Program` from ast.rs: the ordered sequence of top-level statements. -/
structure Program where
  statements : List StatementEnum
deriving DecidableEq

/-- `NodeEnum` from ast.rs. -/
inductive NodeEnum where
  | Expression (e : ExpressionEnum)
  | Statement (s : StatementEnum)
  | Program (p : Program)
deriving DecidableEq

/-- `Identifier::TokenLiteral` (ast.rs lines 128-131). -/
def Identifier.TokenLiteral (i : Identifier) : Str :=
  i.token.literal

/-- `Identifier::String` (ast.rs lines 133-135): returns the token's literal
text, not the `value` field. -/
def Identifier.String (i : Identifier) : Str :=
  i.token.literal

/-- `IntegerLiteral::TokenLiteral` (ast.rs lines 184-186). -/
def IntegerLiteral.TokenLiteral (i : IntegerLiteral) : Str :=
  i.token.literal

/-- `IntegerLiteral::String` (ast.rs lines 188-190): returns
`self.TokenLiteral().to_string()`. -/
def IntegerLiteral.String (i : IntegerLiteral) : Str :=
  i.TokenLiteral

/-- `ExpressionEnum`/`PrefixExpression`/`InfixExpression` `TokenLiteral`
dispatch (ast.rs lines 57-65, 203-205, 223-225). -/
def ExpressionEnum.TokenLiteral : ExpressionEnum → Str
  | .Identifier e => e.TokenLiteral
  | .IntegerLiteral e => e.TokenLiteral
  | .PrefixExpression token _ _ => token.literal
  | .InfixExpression token _ _ _ => token.literal

/-- `ExpressionEnum::String` dispatch (ast.rs lines 67-74) together with
`PrefixExpression::String` (lines 207-209, `({op}{right})` with no space) and
`InfixExpression::String` (lines 227-234, `({left} {op} {right})`). -/
def ExpressionEnum.String : ExpressionEnum → Str
  | .Identifier e => e.String
  | .IntegerLiteral e => e.String
  | .PrefixExpression _ operator right =>
      "(" ++ operator ++ right.String ++ ")"
  | .InfixExpression _ left operator right =>
      "(" ++ left.String ++ " " ++ operator ++ " " ++ right.String ++ ")"

/-- `LetStatement::TokenLiteral` (ast.rs lines 111-113). -/
def LetStatement.TokenLiteral (s : LetStatement) : Str :=
  s.token.literal

/-- `LetStatement::String` (ast.rs lines 115-117):
`format!("let {} = {};", name, value)`. -/
def LetStatement.String (s : LetStatement) : Str :=
  "let " ++ s.name.String ++ " = " ++ s.value.String ++ ";"

/-- `ReturnStatement::TokenLiteral` (ast.rs lines 145-147). -/
def ReturnStatement.TokenLiteral (s : ReturnStatement) : Str :=
  s.token.literal

/-- `ReturnStatement::String` (ast.rs lines 149-151):
`format!("return {};", returnValue)`. -/
def ReturnStatement.String (s : ReturnStatement) : Str :=
  "return " ++ s.returnValue.String ++ ";"

/-- `ExpressionStatement::TokenLiteral` (ast.rs lines 163-165). -/
def ExpressionStatement.TokenLiteral (s : ExpressionStatement) : Str :=
  s.token.literal

/-- `ExpressionStatement::String` (ast.rs lines 167-172): the inner
expression's string when present, else the default empty string. -/
def ExpressionStatement.String (s : ExpressionStatement) : Str :=
  match s.expression with
  | some e => e.String
  | none => ""

/-- `StatementEnum::TokenLiteral` dispatch (ast.rs lines 28-34). -/
def StatementEnum.TokenLiteral : StatementEnum → Str
  | .Let s => s.TokenLiteral
  | .Return s => s.TokenLiteral
  | .Expression s => s.TokenLiteral

/-- `StatementEnum::String` dispatch (ast.rs lines 36-42). -/
def StatementEnum.String : StatementEnum → Str
  | .Let s => s.String
  | .Return s => s.String
  | .Expression s => s.String

/-- `Program::TokenLiteral` (ast.rs lines 86-92): the first statement's token
literal when the list is non-empty, otherwise `""`. -/
def Program.TokenLiteral (p : Program) : Str :=
  match p.statements with
  | [] => ""
  | s :: _ => s.TokenLiteral

/-- `Program::String` (ast.rs lines 94-100): `map(String).reduce(acc + s)`
with `unwrap_or_default`, i.e. a separator-free fold of the statements'
renderings, empty for an empty program. -/
def Program.String (p : Program) : Str :=
  match p.statements.map StatementEnum.String with
  | [] => ""
  | s :: rest => rest.foldl (fun acc stmt => acc ++ stmt) s

/-- `NodeEnum` `TokenLiteral` dispatch (enum_dispatch over ast.rs lines 5-17). -/
def NodeEnum.TokenLiteral : NodeEnum → Str
  | .Expression e => e.TokenLiteral
  | .Statement s => s.TokenLiteral
  | .Program p => p.TokenLiteral

/-- `NodeEnum` `String` dispatch (enum_dispatch over ast.rs lines 5-17). -/
def NodeEnum.String : NodeEnum → Str
  | .Expression e => e.String
  | .Statement s => s.String
  | .Program p => p.String

/-! ## Lexer, modelled from the spec (§4.1, §6)

`lexer.rs` is not among the published sources.  The model is a single-pass
forward scan: skip whitespace, recognize integer literals, identifiers and
keywords, single- and multi-character operators and delimiters, emit an
illegal token for anything unrecognized, and an end-of-input token at the
end.  Characters are compared through their code points. -/

/-- Modelled from the spec: ASCII whitespace recognition for the lexer's
whitespace skipping. -/
def isWhitespaceC (c : Char) : Bool :=
  c.toNat = 32 || c.toNat = 9 || c.toNat = 10 || c.toNat = 13

/-- Modelled from the spec: ASCII decimal-digit recognition used for integer
literals. -/
def isDigitC (c : Char) : Bool :=
  48 ≤ c.toNat && c.toNat ≤ 57

/-- Modelled from the spec: identifier characters (ASCII letters and the
underscore). -/
def isLetterC (c : Char) : Bool :=
  (65 ≤ c.toNat && c.toNat ≤ 90) || (97 ≤ c.toNat && c.toNat ≤ 122) ||
    c.toNat = 95

/-- Modelled from the spec: keyword lookup mapping `let` and `return` to their
keyword kinds and every other identifier to `IDENT`. -/
def lookupIdent (s : Str) : TokenKind :=
  if s = "let" then .LET
  else if s = "return" then .RETURN
  else .IDENT

/-- Modelled from the spec: produce the next token and the remaining input,
skipping leading whitespace; on empty input the end-of-input token. -/
def nextToken : List Char → Token × List Char
  | [] => (⟨.EOF, ""⟩, [])
  | c :: cs =>
    if isWhitespaceC c then nextToken cs
    else if isDigitC c then
      (⟨.INT, ⟨(c :: cs).takeWhile isDigitC⟩⟩, (c :: cs).dropWhile isDigitC)
    else if isLetterC c then
      (⟨lookupIdent ⟨(c :: cs).takeWhile isLetterC⟩,
          ⟨(c :: cs).takeWhile isLetterC⟩⟩,
        (c :: cs).dropWhile isLetterC)
    else if c = '=' then
      match cs with
      | '=' :: rest => (⟨.EQ, "=="⟩, rest)
      | _ => (⟨.ASSIGN, "="⟩, cs)
    else if c = '!' then
      match cs with
      | '=' :: rest => (⟨.NOT_EQ, "!="⟩, rest)
      | _ => (⟨.BANG, "!"⟩, cs)
    else if c = '+' then (⟨.PLUS, "+"⟩, cs)
    else if c = '-' then (⟨.MINUS, "-"⟩, cs)
    else if c = '*' then (⟨.ASTERISK, "*"⟩, cs)
    else if c = '/' then (⟨.SLASH, "/"⟩, cs)
    else if c = '<' then (⟨.LT, "<"⟩, cs)
    else if c = '>' then (⟨.GT, ">"⟩, cs)
    else if c = ';' then (⟨.SEMICOLON, ";"⟩, cs)
    else if c = '(' then (⟨.LPAREN, "("⟩, cs)
    else if c = ')' then (⟨.RPAREN, ")"⟩, cs)
    else (⟨.ILLEGAL, ⟨[c]⟩⟩, cs)

/-- Modelled from the spec: run the lexer to completion, collecting the tokens
before the end-of-input token.  The fuel argument bounds the number of tokens;
every emitted token consumes at least one character, so one unit per input
character is enough. -/
def lexFuel : Nat → List Char → List Token
  | 0, _ => []
  | Nat.succ f, l =>
    match nextToken l with
    | (tok, rest) => if tok.kind = .EOF then [] else tok :: lexFuel f rest

/-- Modelled from the spec: the token stream of a source string. -/
def lex (s : Str) : List Token :=
  lexFuel (s.length + 1) s.data

/-! ## Parser, modelled from the spec (§4.2, §6)

`parser.rs` is not among the published sources.  The model consumes the token
list directly (the current token is the head).  Expression parsing is the
spec's precedence-climbing loop: parse one prefix expression, then while the
next token's binding power strictly exceeds the current minimum, consume it as
a binary operator and parse its right-hand side at the operator's own binding
power, folding left-associatively.  The parser's diagnostic error list does
not affect the returned `Program` value and is not modelled. -/

/-- Modelled from the spec: the fixed binding-power table —
equality/comparison lowest, additive next, multiplicative next (§6); `1` is
the bottom value for every non-operator token. -/
def precedence : TokenKind → Nat
  | .EQ => 2
  | .NOT_EQ => 2
  | .LT => 3
  | .GT => 3
  | .PLUS => 4
  | .MINUS => 4
  | .SLASH => 5
  | .ASTERISK => 5
  | _ => 1

/-- Modelled from the spec: the fallible `i64` parse applied to an integer
literal's text — all-digit text in the signed 64-bit range. -/
def digitsToNat (l : List Char) : Nat :=
  l.foldl (fun acc c => acc * 10 + (c.toNat - 48)) 0

/-- Modelled from the spec: `i64` parsing of an integer-literal token's text;
`none` when the text is empty, non-numeric, or out of the 64-bit range. -/
def parseI64 (s : Str) : Option Int :=
  if s.data ≠ [] ∧ s.data.all isDigitC = true ∧ digitsToNat s.data < 2 ^ 63
  then some (Int.ofNat (digitsToNat s.data))
  else none

/-- Modelled from the spec: the precedence-climbing expression parser.  The
`Sum.inl minPrec` mode parses a prefix expression and enters the binary-fold
loop; the `Sum.inr (minPrec, left)` mode is one step of that loop with `left`
the operand folded so far.  Unary operands are parsed at the highest binding
power `6`; parenthesized groups restart at the bottom and require a closing
parenthesis.  Fuel decreases at every recursion; running out behaves like the
corresponding stop case. -/
def parseExprM : Nat → Nat ⊕ Nat × ExpressionEnum → List Token →
    Option ExpressionEnum × List Token
  | 0, Sum.inl _, toks => (none, toks)
  | 0, Sum.inr (_, left), toks => (some left, toks)
  | Nat.succ f, Sum.inl minPrec, toks =>
    match toks with
    | [] => (none, [])
    | tok :: rest =>
      match tok.kind with
      | .IDENT =>
          parseExprM f (Sum.inr (minPrec, .Identifier ⟨tok, tok.literal⟩)) rest
      | .INT =>
        match parseI64 tok.literal with
        | some v =>
            parseExprM f (Sum.inr (minPrec, .IntegerLiteral ⟨tok, v⟩)) rest
        | none => (none, rest)
      | .BANG =>
        match parseExprM f (Sum.inl 6) rest with
        | (some right, r2) =>
            parseExprM f
              (Sum.inr (minPrec, .PrefixExpression tok tok.literal right)) r2
        | (none, r2) => (none, r2)
      | .MINUS =>
        match parseExprM f (Sum.inl 6) rest with
        | (some right, r2) =>
            parseExprM f
              (Sum.inr (minPrec, .PrefixExpression tok tok.literal right)) r2
        | (none, r2) => (none, r2)
      | .LPAREN =>
        match parseExprM f (Sum.inl 1) rest with
        | (some e, t2 :: r3) =>
            if t2.kind = .RPAREN then parseExprM f (Sum.inr (minPrec, e)) r3
            else (none, t2 :: r3)
        | (some _, []) => (none, [])
        | (none, r2) => (none, r2)
      | _ => (none, toks)
  | Nat.succ f, Sum.inr (minPrec, left), toks =>
    match toks with
    | [] => (some left, [])
    | tok :: rest =>
      if minPrec < precedence tok.kind then
        match parseExprM f (Sum.inl (precedence tok.kind)) rest with
        | (some right, r2) =>
            parseExprM f
              (Sum.inr (minPrec, .InfixExpression tok left tok.literal right))
              r2
        | (none, r2) => (none, r2)
      else (some left, toks)

/-- Modelled from the spec: parse one expression with the given minimum
binding power. -/
def parseExpression (f minPrec : Nat) (toks : List Token) :
    Option ExpressionEnum × List Token :=
  parseExprM f (Sum.inl minPrec) toks

/-- Modelled from the spec: consume an optional statement-terminating
semicolon. -/
def skipSemicolon : List Token → List Token
  | [] => []
  | tok :: rest => if tok.kind = .SEMICOLON then rest else tok :: rest

/-- Modelled from the spec: parse a `let` statement after its keyword token —
identifier, `=`, value expression, terminating semicolon; `none` on a
structural mismatch. -/
def parseLetStatement (f : Nat) (letTok : Token) (toks : List Token) :
    Option StatementEnum × List Token :=
  match toks with
  | [] => (none, [])
  | tok1 :: rest1 =>
    if tok1.kind = .IDENT then
      match rest1 with
      | [] => (none, [])
      | tok2 :: rest2 =>
        if tok2.kind = .ASSIGN then
          match parseExpression f 1 rest2 with
          | (some v, r3) =>
              (some (.Let ⟨letTok, ⟨tok1, tok1.literal⟩, v⟩), skipSemicolon r3)
          | (none, r3) => (none, r3)
        else (none, tok2 :: rest2)
    else (none, tok1 :: rest1)

/-- Modelled from the spec: statement dispatch on the leading token — `let`
and `return` statements, and otherwise a bare expression statement whose
optional inner expression is whatever the expression parser produced. -/
def parseStatement (f : Nat) (toks : List Token) :
    Option StatementEnum × List Token :=
  match toks with
  | [] => (none, [])
  | tok :: rest =>
    match tok.kind with
    | .LET => parseLetStatement f tok rest
    | .RETURN =>
      match parseExpression f 1 rest with
      | (some v, r2) => (some (.Return ⟨tok, v⟩), skipSemicolon r2)
      | (none, r2) => (none, r2)
    | _ =>
      match parseExpression f 1 (tok :: rest) with
      | (eOpt, r2) => (some (.Expression ⟨tok, eOpt⟩), skipSemicolon r2)

/-- Modelled from the spec: the `ParseProgram` loop — parse top-level
statements until end of input, collecting the ones that parse; on a failed
statement at least one token has been consumed or the fuel decreases, so the
loop always terminates. -/
def parseProgramF : Nat → List Token → List StatementEnum
  | 0, _ => []
  | Nat.succ f, toks =>
    match toks with
    | [] => []
    | _ :: _ =>
      match parseStatement f toks with
      | (some s, rest) => s :: parseProgramF f rest
      | (none, rest) => parseProgramF f rest

/-- Modelled from the spec: `ParseProgram` — lex the source and parse the
token stream into a `Program`.  The fuel `s.length + 2` exceeds the recursion
depth of any parse of `s`, since every recursive step consumes input. -/
def ParseProgram (s : Str) : Program :=
  ⟨parseProgramF (s.length + 2) (lex s)⟩

/-! ## Object system and evaluator, modelled from the spec (§4.4)

`object.rs` and `evaluator.rs` are not among the published sources.  Only the
behavior the spec confirms for the current test surface is modelled: an
`IntegerLiteral` evaluates to an `Integer` object holding its value, an
expression statement yields its inner expression's value, and a program
yields the value of its last statement.  The composite cases the spec flags
as assumptions (prefix/infix operators, `let` bindings, `return` signals) are
outside the modelled surface and evaluate to `none`. -/

/-- Modelled from the spec: the `Integer` object variant holding a signed
64-bit value. -/
structure Integer where
  value : Int
deriving DecidableEq

/-- Modelled from the spec: the closed set of runtime value variants; only
`Integer` is exercised by the current test surface. -/
inductive ObjectEnum where
  | Integer (i : Integer)
deriving DecidableEq

/-- Modelled from the spec: expression evaluation on the confirmed surface —
an `IntegerLiteral` evaluates to an `Integer` object holding its value. -/
def evalExpression : ExpressionEnum → Option ObjectEnum
  | .IntegerLiteral lit => some (.Integer ⟨lit.value⟩)
  | _ => none

/-- Modelled from the spec: statement evaluation on the confirmed surface —
an expression statement evaluates its inner expression and yields that
value. -/
def evalStatement : StatementEnum → Option ObjectEnum
  | .Expression es =>
    match es.expression with
    | some e => evalExpression e
    | none => none
  | _ => none

/-- Modelled from the spec: a program's value is the value of its last
evaluated statement, with no value for an empty program. -/
def evalProgram : List StatementEnum → Option ObjectEnum
  | [] => none
  | [s] => evalStatement s
  | _ :: rest => evalProgram rest

/-- Modelled from the spec: `Eval` dispatch over the node hierarchy. -/
def Eval : NodeEnum → Option ObjectEnum
  | .Program p => evalProgram p.statements
  | .Statement s => evalStatement s
  | .Expression e => evalExpression e

/-! ## State-passing rendering

The Rust printing methods take `&self` and none of the node types has
interior mutability, so printing cannot mutate the tree.  To state that frame
property inside the embedding, each printing operation is re-expressed in
state-passing form: it returns the node it traversed (reconstructed from the
fields it read) together with the rendered string.  Printing never mutating
the AST is then the statement that the returned node equals the input and the
returned string equals the pure rendering. -/

/-- State-passing form of `Identifier::String`. -/
def Identifier.StringSt (i : Identifier) : Identifier × Str :=
  (⟨i.token, i.value⟩, i.token.literal)

/-- State-passing form of `IntegerLiteral::String`. -/
def IntegerLiteral.StringSt (i : IntegerLiteral) : IntegerLiteral × Str :=
  (⟨i.token, i.value⟩, i.token.literal)

/-- State-passing form of `ExpressionEnum::String`. -/
def ExpressionEnum.StringSt : ExpressionEnum → ExpressionEnum × Str
  | .Identifier e =>
    match e.StringSt with
    | (e2, s) => (.Identifier e2, s)
  | .IntegerLiteral e =>
    match e.StringSt with
    | (e2, s) => (.IntegerLiteral e2, s)
  | .PrefixExpression tok op right =>
    match right.StringSt with
    | (r, rs) => (.PrefixExpression tok op r, "(" ++ op ++ rs ++ ")")
  | .InfixExpression tok left op right =>
    match left.StringSt, right.StringSt with
    | (l, ls), (r, rs) =>
        (.InfixExpression tok l op r, "(" ++ ls ++ " " ++ op ++ " " ++ rs ++ ")")

/-- State-passing form of `StatementEnum::String`. -/
def StatementEnum.StringSt : StatementEnum → StatementEnum × Str
  | .Let s =>
    match s.name.StringSt, s.value.StringSt with
    | (n, ns), (v, vs) => (.Let ⟨s.token, n, v⟩, "let " ++ ns ++ " = " ++ vs ++ ";")
  | .Return s =>
    match s.returnValue.StringSt with
    | (v, vs) => (.Return ⟨s.token, v⟩, "return " ++ vs ++ ";")
  | .Expression s =>
    match s.expression with
    | some e =>
      match e.StringSt with
      | (e2, es) => (.Expression ⟨s.token, some e2⟩, es)
    | none => (.Expression ⟨s.token, none⟩, "")

/-- State-passing rendering of a statement list, in order. -/
def statementsStringSt : List StatementEnum → List StatementEnum × List Str
  | [] => ([], [])
  | s :: rest =>
    match s.StringSt, statementsStringSt rest with
    | (s2, str), (rest2, strs) => (s2 :: rest2, str :: strs)

/-- State-passing form of `Program::String`. -/
def Program.StringSt (p : Program) : Program × Str :=
  match statementsStringSt p.statements with
  | (sts, strs) =>
    (⟨sts⟩, match strs with
      | [] => ""
      | x :: xs => xs.foldl (fun acc stmt => acc ++ stmt) x)

/-- State-passing form of the `NodeEnum` `String` dispatch. -/
def NodeEnum.StringSt : NodeEnum → NodeEnum × Str
  | .Expression e =>
    match e.StringSt with
    | (e2, s) => (.Expression e2, s)
  | .Statement s =>
    match s.StringSt with
    | (s2, str) => (.Statement s2, str)
  | .Program p =>
    match p.StringSt with
    | (p2, str) => (.Program p2, str)

/-- State-passing form of `ExpressionEnum::TokenLiteral`. -/
def ExpressionEnum.TokenLiteralSt : ExpressionEnum → ExpressionEnum × Str
  | .Identifier e => (.Identifier ⟨e.token, e.value⟩, e.token.literal)
  | .IntegerLiteral e => (.IntegerLiteral ⟨e.token, e.value⟩, e.token.literal)
  | .PrefixExpression tok op r => (.PrefixExpression tok op r, tok.literal)
  | .InfixExpression tok l op r => (.InfixExpression tok l op r, tok.literal)

/-- State-passing form of `StatementEnum::TokenLiteral`. -/
def StatementEnum.TokenLiteralSt : StatementEnum → StatementEnum × Str
  | .Let s => (.Let ⟨s.token, s.name, s.value⟩, s.token.literal)
  | .Return s => (.Return ⟨s.token, s.returnValue⟩, s.token.literal)
  | .Expression s => (.Expression ⟨s.token, s.expression⟩, s.token.literal)

/-- State-passing form of `Program::TokenLiteral`. -/
def Program.TokenLiteralSt (p : Program) : Program × Str :=
  match p.statements with
  | [] => (⟨[]⟩, "")
  | s :: rest =>
    match s.TokenLiteralSt with
    | (s2, str) => (⟨s2 :: rest⟩, str)

/-- State-passing form of the `NodeEnum` `TokenLiteral` dispatch. -/
def NodeEnum.TokenLiteralSt : NodeEnum → NodeEnum × Str
  | .Expression e =>
    match e.TokenLiteralSt with
    | (e2, s) => (.Expression e2, s)
  | .Statement s =>
    match s.TokenLiteralSt with
    | (s2, str) => (.Statement s2, str)
  | .Program p =>
    match p.TokenLiteralSt with
    | (p2, str) => (.Program p2, str)

/-! ## Helper lemmas -/

/-- A decimal digit is not whitespace. -/
lemma digit_not_ws {c : Char} (h : isDigitC c = true) : isWhitespaceC c = false := by
  simp [isDigitC, Bool.and_eq_true, decide_eq_true_eq] at h
  simp [isWhitespaceC, Bool.or_eq_false_iff, decide_eq_false_iff_not]
  omega

/-- On input starting with a digit, the lexer emits an `INT` token holding the
maximal digit run and leaves the rest. -/
lemma nextToken_digit {c : Char} (cs : List Char) (hc : isDigitC c = true) :
    nextToken (c :: cs) =
      (⟨.INT, ⟨(c :: cs).takeWhile isDigitC⟩⟩, (c :: cs).dropWhile isDigitC) := by
  simp only [nextToken, digit_not_ws hc, hc, Bool.false_eq_true, if_false, if_true]

/-- Lexing an all-digit character run yields one `INT` token. -/
lemma lexFuel_succ_digits (f : Nat) {c : Char} (cs : List Char)
    (hall : ∀ x ∈ c :: cs, isDigitC x = true) :
    lexFuel (f + 1) (c :: cs) = [⟨.INT, ⟨c :: cs⟩⟩] := by
  have hc : isDigitC c = true := hall c (List.mem_cons_self c cs)
  have htake : (c :: cs).takeWhile isDigitC = c :: cs :=
    List.takeWhile_eq_self_iff.mpr hall
  have hdrop : (c :: cs).dropWhile isDigitC = [] :=
    List.dropWhile_eq_nil_iff.mpr hall
  rw [show f + 1 = Nat.succ f from rfl, lexFuel, nextToken_digit cs hc, htake, hdrop]
  cases f with
  | zero => rfl
  | succ g => rfl

/-- Lexing a non-empty all-digit source yields a single `INT` token whose
literal is the whole source. -/
lemma lex_digits (s : Str) (h1 : s.data ≠ []) (h2 : s.data.all isDigitC = true) :
    lex s = [⟨.INT, s⟩] := by
  rcases hs : s.data with _ | ⟨c, cs⟩
  · exact absurd hs h1
  · have hall : ∀ x ∈ c :: cs, isDigitC x = true := by
      intro x hx
      exact List.all_eq_true.mp h2 x (hs ▸ hx)
    have hlen : s.length = cs.length + 1 := by
      show s.data.length = _
      rw [hs]
      rfl
    have hmk : (⟨c :: cs⟩ : Str) = s := by rw [← hs]
    unfold lex
    rw [hlen, hs, show cs.length + 1 + 1 = (cs.length + 1) + 1 from rfl,
      lexFuel_succ_digits (cs.length + 1) cs hall, hmk]

/-- The binary-operator fold stops at end of input whatever the fuel. -/
lemma parseExprM_inr_nil (f minPrec : Nat) (left : ExpressionEnum) :
    parseExprM f (Sum.inr (minPrec, left)) [] = (some left, []) := by
  cases f with
  | zero => rfl
  | succ g => rfl

/-- Parsing a one-token stream holding a numeric `INT` token yields a single
expression statement around the integer literal. -/
lemma parseProgramF_single_int (f : Nat) (lit : Str) (v : Int)
    (hv : parseI64 lit = some v) :
    parseProgramF (f + 2) [⟨.INT, lit⟩] =
      [.Expression ⟨⟨.INT, lit⟩, some (.IntegerLiteral ⟨⟨.INT, lit⟩, v⟩)⟩] := by
  simp only [parseProgramF, parseStatement, parseExpression, parseExprM, hv,
    parseExprM_inr_nil, skipSemicolon]

/-- Parsing a non-empty all-digit source in the signed 64-bit range yields a
program with a single expression statement around the integer literal. -/
lemma parseProgram_digits (s : Str) (h1 : s.data ≠ []) (h2 : s.data.all isDigitC = true)
    (h3 : digitsToNat s.data < 2 ^ 63) :
    ParseProgram s = ⟨[.Expression ⟨⟨.INT, s⟩,
      some (.IntegerLiteral ⟨⟨.INT, s⟩, Int.ofNat (digitsToNat s.data)⟩)⟩]⟩ := by
  have hv : parseI64 s = some (Int.ofNat (digitsToNat s.data)) := by
    unfold parseI64
    rw [if_pos ⟨h1, h2, h3⟩]
  unfold ParseProgram
  rw [lex_digits s h1 h2, parseProgramF_single_int s.length s _ hv]

/-- The state-passing expression rendering returns the expression unchanged
together with its pure rendering. -/
lemma exprStringSt_eq (e : ExpressionEnum) : e.StringSt = (e, e.String) := by
  induction e with
  | Identifier e => rfl
  | IntegerLiteral e => rfl
  | PrefixExpression tok op r ih =>
      simp [ExpressionEnum.StringSt, ih, ExpressionEnum.String]
  | InfixExpression tok l op r ihl ihr =>
      simp [ExpressionEnum.StringSt, ihl, ihr, ExpressionEnum.String]

/-- The state-passing statement rendering returns the statement unchanged
together with its pure rendering. -/
lemma stmtStringSt_eq (s : StatementEnum) : s.StringSt = (s, s.String) := by
  cases s with
  | Let s =>
      simp [StatementEnum.StringSt, exprStringSt_eq, StatementEnum.String,
        LetStatement.String, Identifier.StringSt, Identifier.String]
  | Return s =>
      simp [StatementEnum.StringSt, exprStringSt_eq, StatementEnum.String,
        ReturnStatement.String]
  | Expression s =>
      cases hs : s.expression with
      | none =>
          simp only [StatementEnum.StringSt, hs, StatementEnum.String,
            ExpressionStatement.String]
          rw [← hs]
      | some e =>
          simp only [StatementEnum.StringSt, hs, exprStringSt_eq,
            StatementEnum.String, ExpressionStatement.String]
          rw [← hs]

/-- The state-passing rendering of a statement list returns the list
unchanged together with the pure renderings. -/
lemma statementsStringSt_eq (l : List StatementEnum) :
    statementsStringSt l = (l, l.map StatementEnum.String) := by
  induction l with
  | nil => rfl
  | cons s rest ih => simp [statementsStringSt, stmtStringSt_eq, ih]

/-- The state-passing program rendering returns the program unchanged
together with its pure rendering. -/
lemma progStringSt_eq (p : Program) : p.StringSt = (p, p.String) := by
  cases p with
  | mk sts =>
      simp [Program.StringSt, statementsStringSt_eq, Program.String]

/-- The state-passing expression literal accessor returns the expression
unchanged together with its pure literal. -/
lemma exprTokenLiteralSt_eq (e : ExpressionEnum) :
    e.TokenLiteralSt = (e, e.TokenLiteral) := by
  cases e <;> rfl

/-- The state-passing statement literal accessor returns the statement
unchanged together with its pure literal. -/
lemma stmtTokenLiteralSt_eq (s : StatementEnum) :
    s.TokenLiteralSt = (s, s.TokenLiteral) := by
  cases s <;> rfl

/-- The state-passing program literal accessor returns the program unchanged
together with its pure literal. -/
lemma progTokenLiteralSt_eq (p : Program) :
    p.TokenLiteralSt = (p, p.TokenLiteral) := by
  cases p with
  | mk sts =>
    cases sts with
    | nil => rfl
    | cons s rest =>
        simp [Program.TokenLiteralSt, stmtTokenLiteralSt_eq, Program.TokenLiteral]

/-! ## Claim theorems -/

/-- Claim C1: for every integer-literal program text whose characters parse as
a valid signed 64-bit integer `N`, evaluating the parsed program yields an
`Integer` object whose value equals `N`. -/
theorem evalIntegerExpression_yields_integer (s : Str) (h1 : s.data ≠ [])
    (h2 : s.data.all isDigitC = true) (h3 : digitsToNat s.data < 2 ^ 63) :
    Eval (.Program (ParseProgram s)) =
      some (.Integer ⟨Int.ofNat (digitsToNat s.data)⟩) := by
  rw [parseProgram_digits s h1 h2 h3]
  rfl

/-- Claim C1 witness: evaluating `"5"` yields `Integer 5` and evaluating
`"10"` yields `Integer 10`, by the theorem at those inputs. -/
theorem evalIntegerExpression_yields_integer_witness :
    Eval (.Program (ParseProgram "5")) = some (.Integer ⟨5⟩) ∧
    Eval (.Program (ParseProgram "10")) = some (.Integer ⟨10⟩) := by
  constructor
  · exact evalIntegerExpression_yields_integer "5" (by decide) (by decide) (by decide)
  · exact evalIntegerExpression_yields_integer "10" (by decide) (by decide) (by decide)

/-- Claim C2: every `LetStatement` renders as
`"let " + name.String + " = " + value.String + ";"`, and parsing
`"let myVar = anotherVar;"` and rendering the resulting statement returns
exactly `"let myVar = anotherVar;"`. -/
theorem letStatement_string_roundTrip :
    (∀ s : LetStatement,
      s.String = "let " ++ s.name.String ++ " = " ++ s.value.String ++ ";") ∧
    (ParseProgram "let myVar = anotherVar;").String = "let myVar = anotherVar;" :=
  ⟨fun _ => rfl, by decide⟩

/-- Claim C3: every `InfixExpression` renders as
`"(" + left.String + " " + operator + " " + right.String + ")"` and every
`PrefixExpression` renders as `"(" + operator + right.String + ")"` with no
space, with the parentheses emitted unconditionally for every operand
shape. -/
theorem operatorExpression_string_parens :
    ∀ (tok : Token) (op : Str) (l r : ExpressionEnum),
      (ExpressionEnum.InfixExpression tok l op r).String =
        "(" ++ l.String ++ " " ++ op ++ " " ++ r.String ++ ")" ∧
      (ExpressionEnum.PrefixExpression tok op r).String =
        "(" ++ op ++ r.String ++ ")" :=
  fun _ _ _ _ => ⟨rfl, rfl⟩

/-- Claim C4: every `Program` renders as the separator-free concatenation of
its statements' renderings in order, and a `Program` with no statements
renders as the empty string. -/
theorem program_string_concatenation :
    (∀ p : Program,
      p.String = String.join (p.statements.map StatementEnum.String)) ∧
    (Program.mk []).String = "" := by
  constructor
  · intro p
    cases p with
    | mk sts =>
      cases h : sts.map StatementEnum.String with
      | nil => simp [Program.String, h, String.join]
      | cons x xs =>
          simp only [Program.String, h, String.join, List.foldl_cons]
          rfl
  · rfl

/-- Claim C5: parsing `"1 + 2 * 3"` yields a single expression statement whose
inner expression renders as exactly `"(1 + (2 * 3))"` — the multiplicative
operator binds tighter than the additive one. -/
theorem precedence_rendering_mul_over_add :
    (ParseProgram "1 + 2 * 3").statements.map
        (fun st => match st with
          | .Expression es => es.expression.map ExpressionEnum.String
          | _ => none) = [some "(1 + (2 * 3))"] ∧
    (ParseProgram "1 + 2 * 3").String = "(1 + (2 * 3))" :=
  ⟨by decide, by decide⟩

/-- Claim C6: `ParseProgram` on the empty input returns a `Program` with an
empty statement list whose rendering is the empty string. -/
theorem parseProgram_empty_input :
    ParseProgram "" = ⟨[]⟩ ∧ (ParseProgram "").String = "" :=
  ⟨rfl, rfl⟩

/-- Claim C7: an `ExpressionStatement` renders as its inner expression's
rendering when the inner expression is present, and as the empty string when
it is absent. -/
theorem expressionStatement_string_inner :
    ∀ (tok : Token) (e : ExpressionEnum),
      (ExpressionStatement.mk tok (some e)).String = e.String ∧
      (ExpressionStatement.mk tok none).String = "" :=
  fun _ _ => ⟨rfl, rfl⟩

/-- Claim C8: printing never mutates the AST — in the state-passing form of
`String` and `TokenLiteral`, every node (expression, statement or program) is
returned unchanged, and the string returned equals the pure rendering, so
repeated calls return equal results. -/
theorem printing_never_mutates :
    ∀ n : NodeEnum,
      n.StringSt = (n, n.String) ∧ n.TokenLiteralSt = (n, n.TokenLiteral) := by
  intro n
  cases n with
  | Expression e =>
      exact ⟨by simp [NodeEnum.StringSt, exprStringSt_eq, NodeEnum.String],
        by simp [NodeEnum.TokenLiteralSt, exprTokenLiteralSt_eq,
          NodeEnum.TokenLiteral]⟩
  | Statement s =>
      exact ⟨by simp [NodeEnum.StringSt, stmtStringSt_eq, NodeEnum.String],
        by simp [NodeEnum.TokenLiteralSt, stmtTokenLiteralSt_eq,
          NodeEnum.TokenLiteral]⟩
  | Program p =>
      exact ⟨by simp [NodeEnum.StringSt, progStringSt_eq, NodeEnum.String],
        by simp [NodeEnum.TokenLiteralSt, progTokenLiteralSt_eq,
          NodeEnum.TokenLiteral]⟩

/-- Claim C9: `Identifier` and `IntegerLiteral` render as exactly their
originating token's literal text, independent of their separate `value`
field; in particular an `IntegerLiteral` with token text `"007"` and value
`7` renders as `"007"`. -/
theorem leaf_string_eq_tokenLiteral :
    (∀ i : Identifier, i.String = i.TokenLiteral) ∧
    (∀ l : IntegerLiteral, l.String = l.TokenLiteral) ∧
    (∀ (tok : Token) (v w : Int),
      (IntegerLiteral.mk tok v).String = (IntegerLiteral.mk tok w).String) ∧
    (∀ (tok : Token) (v w : Str),
      (Identifier.mk tok v).String = (Identifier.mk tok w).String) ∧
    (IntegerLiteral.mk ⟨.INT, "007"⟩ 7).String = "007" :=
  ⟨fun _ => rfl, fun _ => rfl, fun _ _ _ => rfl, fun _ _ _ => rfl, rfl⟩

/-- Claim C10: `Program.TokenLiteral` returns the first statement's token
literal when the statement list is non-empty, and the empty string when the
statement list is empty. -/
theorem program_tokenLiteral_first :
    (∀ (st : StatementEnum) (rest : List StatementEnum),
      (Program.mk (st :: rest)).TokenLiteral = st.TokenLiteral) ∧
    (Program.mk []).TokenLiteral = "" :=
  ⟨fun _ _ => rfl, rfl⟩
